import Mathlib

/-!
Verification development for the gold-monitor service (`app.py` and
`app/services/trading_hours.py`).

The Python code is shallowly embedded: numbers carried by the program
(epoch seconds, prices) are modelled as rationals, Python dicts holding a
fixed set of keys become structures, `None` becomes `Option`, and network
I/O is abstracted by explicit environment functions (`env`, `fetch`)
passed as parameters.  Rounding (`round(x, 2)`) is modelled over ℚ with
round-half-up on the scaled integer; the program only rounds values that
are relevant on the 1/100 grid, where every round-to-nearest convention
agrees.
-/

namespace GoldMonitor

/-! ## Circuit breaker (`DATA_SOURCES`, `fetch_gold_price` in app.py) -/

/-- A canonical gold quote, as produced by the quote fetchers
(`fetch_from_eastmoney` etc. in app.py).  The `time_str` display field is
omitted; all other dict keys are kept. -/
structure GoldQuote where
  price : ℚ
  openPrice : ℚ
  high : ℚ
  low : ℚ
  yesterday_close : ℚ
  change : ℚ
  change_percent : ℚ
  timestamp : ℚ
  source : String
deriving DecidableEq, Repr

/-- One entry of `DATA_SOURCES` in app.py: name, type tag used for
handler dispatch, enabled flag, consecutive-failure counter and the
circuit-breaker mute deadline (epoch seconds, 0 = not muted).  The
per-call network `timeout` field is irrelevant to the model and omitted. -/
structure Source where
  name : String
  stype : String
  enabled : Bool
  fail_count : ℕ
  mute_until : ℚ
deriving DecidableEq, Repr

/-- `MAX_FAIL_COUNT = 3` in app.py. -/
def MAX_FAIL_COUNT : ℕ := 3

/-- `MUTE_DURATION = 60` in app.py. -/
def MUTE_DURATION : ℚ := 60

/-- The keys of `SOURCE_HANDLERS` in app.py. -/
def SOURCE_HANDLER_TYPES : List String := ["eastmoney", "sina", "tencent", "netease"]

/-- The failure branch of `fetch_gold_price` (app.py lines 445-451):
increment `fail_count`; once it reaches `MAX_FAIL_COUNT`, set
`mute_until = now + MUTE_DURATION` and reset the counter to 0. -/
def updateFail (now : ℚ) (s : Source) : Source :=
  let fc := s.fail_count + 1
  if MAX_FAIL_COUNT ≤ fc then
    { s with fail_count := 0, mute_until := now + MUTE_DURATION }
  else
    { s with fail_count := fc }

/-- Whether `fetch_gold_price` actually invokes the fetcher for a source:
it must be enabled, not muted at call time, and its type must have a
registered handler. -/
def attempted (now : ℚ) (s : Source) : Prop :=
  s.enabled = true ∧ ¬ now < s.mute_until ∧ s.stype ∈ SOURCE_HANDLER_TYPES

instance (now : ℚ) (s : Source) : Decidable (attempted now s) := by
  unfold attempted
  infer_instance

/-- The source-iteration loop of `fetch_gold_price`.  Walks the source
list in priority order; skips disabled sources (they are filtered out
before the loop in Python), counts and skips muted sources, skips
sources without a registered handler, and otherwise consults the fetch
environment `env` (keyed by source type).  Returns the first successful
quote, the updated source list, and the muted count. -/
def tryLoop (env : String → Option GoldQuote) (now : ℚ) :
    List Source → Option GoldQuote × List Source × ℕ
  | [] => (none, [], 0)
  | s :: rest =>
    if s.enabled = true then
      if now < s.mute_until then
        let r := tryLoop env now rest
        (r.1, s :: r.2.1, r.2.2 + 1)
      else if s.stype ∈ SOURCE_HANDLER_TYPES then
        match env s.stype with
        | some data => (some data, { s with fail_count := 0, mute_until := 0 } :: rest, 0)
        | none =>
          let r := tryLoop env now rest
          (r.1, updateFail now s :: r.2.1, r.2.2)
      else
        let r := tryLoop env now rest
        (r.1, s :: r.2.1, r.2.2)
    else
      let r := tryLoop env now rest
      (r.1, s :: r.2.1, r.2.2)

/-- Failure message for an empty enabled-source list in `fetch_gold_price`. -/
def MSG_NO_ENABLED : String := "没有启用的数据源"

/-- Failure message when every enabled source is muted. -/
def MSG_ALL_MUTED : String := "所有数据源均处于熔断冷却期，请稍后再试"

/-- Failure message when sources were attempted but all failed. -/
def MSG_ALL_FAILED : String := "所有可用数据源均获取失败，请检查网络或稍后重试"

/-- `fetch_gold_price` (app.py lines 417-456): returns the quote or a
failure reason, together with the post-call source states. -/
def fetch_gold_price (env : String → Option GoldQuote) (now : ℚ) (sources : List Source) :
    Option GoldQuote × Option String × List Source :=
  let enabled := sources.filter (·.enabled)
  if enabled = [] then
    (none, some MSG_NO_ENABLED, sources)
  else
    let r := tryLoop env now sources
    match r.1 with
    | some data => (some data, none, r.2.1)
    | none =>
      if r.2.2 = enabled.length then
        (none, some MSG_ALL_MUTED, r.2.1)
      else
        (none, some MSG_ALL_FAILED, r.2.1)

/-- Per-source effect of one full failing pass of the loop: attempted
sources receive the failure update, skipped sources are untouched. -/
def stepSrc (now : ℚ) (s : Source) : Source :=
  if attempted now s then updateFail now s else s

/-- A source that counts towards `muted_count`: enabled and cooling down. -/
def isMuted (now : ℚ) (s : Source) : Bool :=
  s.enabled && decide (now < s.mute_until)

/-- Muted-source count among a source list at time `now`. -/
def mutedLen (now : ℚ) (l : List Source) : ℕ :=
  (l.filter (isMuted now)).length

theorem tryLoop_cons_skip (env : String → Option GoldQuote) (now : ℚ)
    (s : Source) (l : List Source) (h : s.enabled = false) :
    tryLoop env now (s :: l) =
      ((tryLoop env now l).1, s :: (tryLoop env now l).2.1, (tryLoop env now l).2.2) := by
  simp [tryLoop, h]

theorem tryLoop_cons_muted (env : String → Option GoldQuote) (now : ℚ)
    (s : Source) (l : List Source) (hen : s.enabled = true) (hmu : now < s.mute_until) :
    tryLoop env now (s :: l) =
      ((tryLoop env now l).1, s :: (tryLoop env now l).2.1, (tryLoop env now l).2.2 + 1) := by
  simp [tryLoop, hen, hmu]

theorem tryLoop_cons_nohandler (env : String → Option GoldQuote) (now : ℚ)
    (s : Source) (l : List Source) (hen : s.enabled = true) (hmu : ¬ now < s.mute_until)
    (hh : s.stype ∉ SOURCE_HANDLER_TYPES) :
    tryLoop env now (s :: l) =
      ((tryLoop env now l).1, s :: (tryLoop env now l).2.1, (tryLoop env now l).2.2) := by
  simp [tryLoop, hen, hmu, hh]

theorem tryLoop_cons_fail (env : String → Option GoldQuote) (now : ℚ)
    (s : Source) (l : List Source) (hen : s.enabled = true) (hmu : ¬ now < s.mute_until)
    (hh : s.stype ∈ SOURCE_HANDLER_TYPES) (hfail : env s.stype = none) :
    tryLoop env now (s :: l) =
      ((tryLoop env now l).1, updateFail now s :: (tryLoop env now l).2.1,
        (tryLoop env now l).2.2) := by
  simp [tryLoop, hen, hmu, hh, hfail]

theorem tryLoop_cons_success (env : String → Option GoldQuote) (now : ℚ)
    (s : Source) (l : List Source) (data : GoldQuote) (hen : s.enabled = true)
    (hmu : ¬ now < s.mute_until) (hh : s.stype ∈ SOURCE_HANDLER_TYPES)
    (hdata : env s.stype = some data) :
    tryLoop env now (s :: l) =
      (some data, { s with fail_count := 0, mute_until := 0 } :: l, 0) := by
  simp [tryLoop, hen, hmu, hh, hdata]

theorem mutedLen_cons_true (now : ℚ) (s : Source) (l : List Source)
    (h : isMuted now s = true) :
    mutedLen now (s :: l) = mutedLen now l + 1 := by
  simp [mutedLen, List.filter_cons, h]

theorem mutedLen_cons_false (now : ℚ) (s : Source) (l : List Source)
    (h : isMuted now s = false) :
    mutedLen now (s :: l) = mutedLen now l := by
  simp [mutedLen, List.filter_cons, h]

theorem tryLoop_append (env : String → Option GoldQuote) (now : ℚ)
    (pre rest : List Source)
    (hpre : ∀ p ∈ pre, attempted now p → env p.stype = none) :
    tryLoop env now (pre ++ rest) =
      ((tryLoop env now rest).1,
       pre.map (stepSrc now) ++ (tryLoop env now rest).2.1,
       mutedLen now pre + (tryLoop env now rest).2.2) := by
  induction pre with
  | nil => simp [mutedLen]
  | cons s pre ih =>
    have hs := hpre s (by simp)
    have hrest : ∀ p ∈ pre, attempted now p → env p.stype = none := fun p hp =>
      hpre p (by simp [hp])
    have hih := ih hrest
    rw [List.cons_append]
    by_cases hen : s.enabled = true
    · by_cases hmu : now < s.mute_until
      · have hstep : stepSrc now s = s := by
          simp [stepSrc, attempted, hmu]
        have hm : isMuted now s = true := by
          simp [isMuted, hen, hmu]
        rw [tryLoop_cons_muted env now s _ hen hmu, hih, List.map_cons, hstep,
          mutedLen_cons_true now s pre hm, List.cons_append]
        simp only [Prod.mk.injEq]
        refine ⟨by trivial, by trivial, by omega⟩
      · have hm : isMuted now s = false := by
          simp [isMuted, hmu]
        by_cases hh : s.stype ∈ SOURCE_HANDLER_TYPES
        · have hatt : attempted now s := ⟨hen, hmu, hh⟩
          have henv : env s.stype = none := hs hatt
          have hstep : stepSrc now s = updateFail now s := by
            simp [stepSrc, hatt]
          rw [tryLoop_cons_fail env now s _ hen hmu hh henv, hih, List.map_cons, hstep,
            mutedLen_cons_false now s pre hm, List.cons_append]
        · have hstep : stepSrc now s = s := by
            simp [stepSrc, attempted, hh]
          rw [tryLoop_cons_nohandler env now s _ hen hmu hh, hih, List.map_cons, hstep,
            mutedLen_cons_false now s pre hm, List.cons_append]
    · have hen' : s.enabled = false := by
        simpa using hen
      have hstep : stepSrc now s = s := by
        simp [stepSrc, attempted, hen']
      have hm : isMuted now s = false := by
        simp [isMuted, hen']
      rw [tryLoop_cons_skip env now s _ hen', hih, List.map_cons, hstep,
        mutedLen_cons_false now s pre hm, List.cons_append]

theorem fetch_gold_price_state (env : String → Option GoldQuote) (now : ℚ)
    (sources : List Source) (hne : sources.filter (·.enabled) ≠ []) :
    (fetch_gold_price env now sources).2.2 = (tryLoop env now sources).2.1 := by
  simp only [fetch_gold_price, if_neg hne]
  rcases h1 : (tryLoop env now sources).1 with _ | q
  · simp only [h1]
    split <;> rfl
  · simp only [h1]

/-- C1: in `fetch_gold_price`, a failed attempt that brings an enabled,
un-muted source's consecutive-failure counter to the threshold
`MAX_FAIL_COUNT = 3` sets, in the same call, its `mute_until` to the
call's current time plus `MUTE_DURATION = 60` seconds and resets the
counter to 0; a failure below the threshold only increments the counter
and leaves `mute_until` unchanged. -/
theorem fetch_mute_on_threshold (env : String → Option GoldQuote) (now : ℚ)
    (pre post : List Source) (s : Source)
    (hpre : ∀ p ∈ pre, attempted now p → env p.stype = none)
    (hen : s.enabled = true) (hmu : ¬ now < s.mute_until)
    (hh : s.stype ∈ SOURCE_HANDLER_TYPES)
    (hfail : env s.stype = none) :
    ((fetch_gold_price env now (pre ++ s :: post)).2.2)[pre.length]? =
        some (updateFail now s) ∧
      (s.fail_count + 1 = MAX_FAIL_COUNT →
        (updateFail now s).mute_until = now + MUTE_DURATION ∧
          (updateFail now s).fail_count = 0) ∧
      (s.fail_count + 1 < MAX_FAIL_COUNT →
        (updateFail now s).fail_count = s.fail_count + 1 ∧
          (updateFail now s).mute_until = s.mute_until) := by
  have hne : (pre ++ s :: post).filter (·.enabled) ≠ [] := by
    intro hc
    have hmem : s ∈ (pre ++ s :: post).filter (·.enabled) :=
      List.mem_filter.2 ⟨by simp, hen⟩
    rw [hc] at hmem
    exact absurd hmem (List.not_mem_nil s)
  have hstate := fetch_gold_price_state env now (pre ++ s :: post) hne
  have happ := tryLoop_append env now pre (s :: post) hpre
  have hhead : (tryLoop env now (s :: post)).2.1 =
      updateFail now s :: (tryLoop env now post).2.1 := by
    rw [tryLoop_cons_fail env now s post hen hmu hh hfail]
  refine ⟨?_, ?_, ?_⟩
  · rw [hstate, happ]
    show (pre.map (stepSrc now) ++ (tryLoop env now (s :: post)).2.1)[pre.length]? =
      some (updateFail now s)
    rw [hhead, List.getElem?_append_right (by simp)]
    simp
  · intro hth
    simp [updateFail, hth]
  · intro hlt
    have hnle : ¬ MAX_FAIL_COUNT ≤ s.fail_count + 1 := by omega
    simp [updateFail, hnle]

/-- Witness for `fetch_mute_on_threshold` at a concrete threshold-reaching
failure: a sina source with two prior failures muted by a third. -/
theorem fetch_mute_on_threshold_witness :
    ((fetch_gold_price (fun _ => none) 100
        ([] ++ ⟨"新浪财经", "sina", true, 2, 0⟩ :: [])).2.2)[(0 : ℕ)]? =
        some (updateFail 100 ⟨"新浪财经", "sina", true, 2, 0⟩) ∧
      ((2 : ℕ) + 1 = MAX_FAIL_COUNT →
        (updateFail 100 ⟨"新浪财经", "sina", true, 2, 0⟩).mute_until = 100 + MUTE_DURATION ∧
          (updateFail 100 ⟨"新浪财经", "sina", true, 2, 0⟩).fail_count = 0) ∧
      ((2 : ℕ) + 1 < MAX_FAIL_COUNT →
        (updateFail 100 ⟨"新浪财经", "sina", true, 2, 0⟩).fail_count = 2 + 1 ∧
          (updateFail 100 ⟨"新浪财经", "sina", true, 2, 0⟩).mute_until = 0) := by
  exact fetch_mute_on_threshold (fun _ => none) 100 [] [] ⟨"新浪财经", "sina", true, 2, 0⟩
    (by intro p hp; cases hp) rfl (by norm_num) (by decide) rfl

theorem mutedLen_le_enabledLen (now : ℚ) (l : List Source) :
    mutedLen now l ≤ (l.filter (·.enabled)).length := by
  induction l with
  | nil => simp [mutedLen]
  | cons s l ih =>
    by_cases hen : s.enabled = true
    · have hf : ((s :: l).filter (·.enabled)).length = (l.filter (·.enabled)).length + 1 := by
        simp [List.filter_cons, hen]
      by_cases hmu : now < s.mute_until
      · have hmc := mutedLen_cons_true now s l (by simp [isMuted, hen, hmu])
        omega
      · have hmc := mutedLen_cons_false now s l (by simp [isMuted, hmu])
        omega
    · have hen' : s.enabled = false := by simpa using hen
      have hf : ((s :: l).filter (·.enabled)).length = (l.filter (·.enabled)).length := by
        simp [List.filter_cons, hen']
      have hmc := mutedLen_cons_false now s l (by simp [isMuted, hen'])
      omega

theorem mutedLen_eq_enabledLen_iff (now : ℚ) (l : List Source) :
    mutedLen now l = (l.filter (·.enabled)).length ↔
      ∀ s ∈ l, s.enabled = true → now < s.mute_until := by
  induction l with
  | nil => simp [mutedLen]
  | cons s l ih =>
    by_cases hen : s.enabled = true
    · have hf : ((s :: l).filter (·.enabled)).length = (l.filter (·.enabled)).length + 1 := by
        simp [List.filter_cons, hen]
      by_cases hmu : now < s.mute_until
      · have hmc := mutedLen_cons_true now s l (by simp [isMuted, hen, hmu])
        constructor
        · intro h t ht hten
          rcases List.mem_cons.1 ht with h1 | h2
          · subst h1
            exact hmu
          · exact (ih.1 (by omega)) t h2 hten
        · intro h
          have hl := ih.2 (fun t ht => h t (List.mem_cons.2 (Or.inr ht)))
          omega
      · have hmc := mutedLen_cons_false now s l (by simp [isMuted, hmu])
        have hle := mutedLen_le_enabledLen now l
        constructor
        · intro h
          exfalso
          omega
        · intro h
          exact absurd (h s (List.mem_cons_self s l) hen) hmu
    · have hen' : s.enabled = false := by simpa using hen
      have hf : ((s :: l).filter (·.enabled)).length = (l.filter (·.enabled)).length := by
        simp [List.filter_cons, hen']
      have hmc := mutedLen_cons_false now s l (by simp [isMuted, hen'])
      constructor
      · intro h t ht hten
        rcases List.mem_cons.1 ht with h1 | h2
        · subst h1
          rw [hen'] at hten
          cases hten
        · exact (ih.1 (by omega)) t h2 hten
      · intro h
        have hl := ih.2 (fun t ht => h t (List.mem_cons.2 (Or.inr ht)))
        omega

theorem tryLoop_none_muted (env : String → Option GoldQuote) (now : ℚ)
    (l : List Source) (h : (tryLoop env now l).1 = none) :
    (tryLoop env now l).2.2 = mutedLen now l := by
  induction l with
  | nil => simp [tryLoop, mutedLen]
  | cons s l ih =>
    by_cases hen : s.enabled = true
    · by_cases hmu : now < s.mute_until
      · rw [tryLoop_cons_muted env now s l hen hmu] at h ⊢
        rw [mutedLen_cons_true now s l (by simp [isMuted, hen, hmu])]
        simp only at h ⊢
        rw [ih h]
      · by_cases hh : s.stype ∈ SOURCE_HANDLER_TYPES
        · rcases henv : env s.stype with _ | q
          · rw [tryLoop_cons_fail env now s l hen hmu hh henv] at h ⊢
            rw [mutedLen_cons_false now s l (by simp [isMuted, hmu])]
            simp only at h ⊢
            exact ih h
          · rw [tryLoop_cons_success env now s l q hen hmu hh henv] at h
            simp at h
        · rw [tryLoop_cons_nohandler env now s l hen hmu hh] at h ⊢
          rw [mutedLen_cons_false now s l (by simp [isMuted, hmu])]
          simp only at h ⊢
          exact ih h
    · have hen' : s.enabled = false := by simpa using hen
      rw [tryLoop_cons_skip env now s l hen'] at h ⊢
      rw [mutedLen_cons_false now s l (by simp [isMuted, hen'])]
      simp only at h ⊢
      exact ih h

theorem tryLoop_none_fail (env : String → Option GoldQuote) (now : ℚ)
    (l : List Source) (h : (tryLoop env now l).1 = none) :
    ∀ s ∈ l, attempted now s → env s.stype = none := by
  induction l with
  | nil => simp
  | cons s l ih =>
    intro t ht hatt
    by_cases hen : s.enabled = true
    · by_cases hmu : now < s.mute_until
      · rw [tryLoop_cons_muted env now s l hen hmu] at h
        simp only at h
        rcases List.mem_cons.1 ht with h1 | h2
        · subst h1
          exact absurd hmu hatt.2.1
        · exact ih h t h2 hatt
      · by_cases hh : s.stype ∈ SOURCE_HANDLER_TYPES
        · rcases henv : env s.stype with _ | q
          · rw [tryLoop_cons_fail env now s l hen hmu hh henv] at h
            simp only at h
            rcases List.mem_cons.1 ht with h1 | h2
            · subst h1
              exact henv
            · exact ih h t h2 hatt
          · rw [tryLoop_cons_success env now s l q hen hmu hh henv] at h
            simp at h
        · rw [tryLoop_cons_nohandler env now s l hen hmu hh] at h
          simp only at h
          rcases List.mem_cons.1 ht with h1 | h2
          · subst h1
            exact absurd hatt.2.2 hh
          · exact ih h t h2 hatt
    · have hen' : s.enabled = false := by simpa using hen
      rw [tryLoop_cons_skip env now s l hen'] at h
      simp only at h
      rcases List.mem_cons.1 ht with h1 | h2
      · subst h1
        exact absurd hatt.1 (by simp [hen'])
      · exact ih h t h2 hatt

/-- C4: assuming every enabled source type has a registered handler and at
least one source is enabled (as in the configured `DATA_SOURCES`),
whenever `fetch_gold_price` returns no quote it returns exactly one of
two distinct failure reasons: the "all sources muted" reason if and only
if every enabled source had `mute_until` greater than the call's current
time (so no fetch was attempted), and otherwise the "all sources failed"
reason, in which case at least one source was attempted and every
attempted source's fetch failed. -/
theorem fetch_failure_reasons (env : String → Option GoldQuote) (now : ℚ)
    (sources : List Source)
    (hhand : ∀ s ∈ sources, s.enabled = true → s.stype ∈ SOURCE_HANDLER_TYPES)
    (hne : sources.filter (·.enabled) ≠ [])
    (hnone : (fetch_gold_price env now sources).1 = none) :
    ((fetch_gold_price env now sources).2.1 = some MSG_ALL_MUTED ∨
        (fetch_gold_price env now sources).2.1 = some MSG_ALL_FAILED) ∧
      ((fetch_gold_price env now sources).2.1 = some MSG_ALL_MUTED ↔
        ∀ s ∈ sources, s.enabled = true → now < s.mute_until) ∧
      ((fetch_gold_price env now sources).2.1 = some MSG_ALL_FAILED →
        (∃ s ∈ sources, attempted now s) ∧
          ∀ s ∈ sources, attempted now s → env s.stype = none) ∧
      MSG_ALL_MUTED ≠ MSG_ALL_FAILED := by
  rcases h1 : (tryLoop env now sources).1 with _ | q
  · have hm := tryLoop_none_muted env now sources h1
    have hf := tryLoop_none_fail env now sources h1
    by_cases hcase :
        (tryLoop env now sources).2.2 = (sources.filter (·.enabled)).length
    · have hall : ∀ s ∈ sources, s.enabled = true → now < s.mute_until :=
        (mutedLen_eq_enabledLen_iff now sources).1 (hm.symm.trans hcase)
      have hfe : fetch_gold_price env now sources =
          (none, some MSG_ALL_MUTED, (tryLoop env now sources).2.1) := by
        simp only [fetch_gold_price, if_neg hne, h1, if_pos hcase]
      refine ⟨Or.inl (by rw [hfe]), ?_, ?_, by decide⟩
      · rw [hfe]
        exact iff_of_true rfl hall
      · rw [hfe]
        intro hcontra
        exact absurd (Option.some.inj hcontra) (by decide)
    · have hfe : fetch_gold_price env now sources =
          (none, some MSG_ALL_FAILED, (tryLoop env now sources).2.1) := by
        simp only [fetch_gold_price, if_neg hne, h1, if_neg hcase]
      have hnall : ¬ ∀ s ∈ sources, s.enabled = true → now < s.mute_until := by
        intro hall
        exact absurd (hm.trans ((mutedLen_eq_enabledLen_iff now sources).2 hall)) hcase
      refine ⟨Or.inr (by rw [hfe]), ?_, ?_, by decide⟩
      · rw [hfe]
        constructor
        · intro hcontra
          exact absurd (Option.some.inj hcontra) (by decide)
        · intro hall
          exact absurd hall hnall
      · intro _
        refine ⟨?_, hf⟩
        push_neg at hnall
        obtain ⟨s, hs, hsen, hsmu⟩ := hnall
        exact ⟨s, hs, hsen, not_lt.2 hsmu, hhand s hs hsen⟩
  · have hfe : fetch_gold_price env now sources =
        (some q, none, (tryLoop env now sources).2.1) := by
      simp only [fetch_gold_price, if_neg hne, h1]
    rw [hfe] at hnone
    exact absurd hnone (by simp)

/-- Witness for `fetch_failure_reasons`: one enabled eastmoney source in
cooldown at call time yields the "all sources muted" reason. -/
theorem fetch_failure_reasons_witness :
    ((fetch_gold_price (fun _ => none) 100 [⟨"东方财富", "eastmoney", true, 0, 1000⟩]).2.1 =
          some MSG_ALL_MUTED ∨
        (fetch_gold_price (fun _ => none) 100
              [⟨"东方财富", "eastmoney", true, 0, 1000⟩]).2.1 =
          some MSG_ALL_FAILED) ∧
      ((fetch_gold_price (fun _ => none) 100
            [⟨"东方财富", "eastmoney", true, 0, 1000⟩]).2.1 =
          some MSG_ALL_MUTED ↔
        ∀ s ∈ [(⟨"东方财富", "eastmoney", true, 0, 1000⟩ : Source)],
          s.enabled = true → (100 : ℚ) < s.mute_until) ∧
      ((fetch_gold_price (fun _ => none) 100
            [⟨"东方财富", "eastmoney", true, 0, 1000⟩]).2.1 =
          some MSG_ALL_FAILED →
        (∃ s ∈ [(⟨"东方财富", "eastmoney", true, 0, 1000⟩ : Source)], attempted 100 s) ∧
          ∀ s ∈ [(⟨"东方财富", "eastmoney", true, 0, 1000⟩ : Source)],
            attempted 100 s → (fun _ => (none : Option GoldQuote)) s.stype = none) ∧
      MSG_ALL_MUTED ≠ MSG_ALL_FAILED := by
  exact fetch_failure_reasons (fun _ => none) 100 [⟨"东方财富", "eastmoney", true, 0, 1000⟩]
    (by decide) (by decide) (by decide)

/-! ## Trading calendar (app/services/trading_hours.py)

Calendar days are modelled as integers with day 0 a Monday, so
`weekday d = d % 7` matches Python's `date.weekday()` (0 = Monday,
6 = Sunday).  Time of day is minutes since midnight (the session
boundaries used by the code all fall on whole minutes).  The external
holiday-data collaborators (`is_holiday`, the exchange-calendar
"first trading day after holiday" lookup) are abstracted into a
`GoldCalendar` environment, per their consumer contract. -/

/-- The holiday environment consumed by `get_trading_status`:
`isGoldHoliday` is `is_holiday(dt, "gold")`, and `firstTradingDayHint d`
is the crawler's "first trading day after the holiday containing `d`"
(only consulted by `_find_next_trading_day` when `d` is a holiday;
`none` models a failed or absent crawler lookup). -/
structure GoldCalendar where
  isGoldHoliday : ℤ → Bool
  firstTradingDayHint : ℤ → Option ℤ

/-- Python's `date.weekday()` under the day-number model. -/
def weekday (d : ℤ) : ℤ := d % 7

/-- `is_trading_day(dt, "gold")` in trading_hours.py: weekday Mon-Fri and
not a gold holiday. -/
def is_trading_day (cal : GoldCalendar) (d : ℤ) : Bool :=
  if 5 ≤ weekday d then false
  else if cal.isGoldHoliday d then false
  else true

/-- The 30-day forward scan of `_find_next_trading_day`: starting from
`cur`, return the first trading day within the fuel budget, else the
original date. -/
def scanNext (cal : GoldCalendar) : ℕ → ℤ → ℤ → ℤ
  | 0, _, orig => orig
  | n + 1, cur, orig =>
    if is_trading_day cal cur then cur else scanNext cal n (cur + 1) orig

/-- `_find_next_trading_day(start_dt, "gold")`: when the start date is a
holiday, first try the exchange-calendar lookup (accepted only when it
lies strictly after the start date), otherwise scan forward up to 30
days. -/
def find_next_trading_day (cal : GoldCalendar) (d : ℤ) : ℤ :=
  match (if cal.isGoldHoliday d then cal.firstTradingDayHint d else none) with
  | some c => if d < c then c else scanNext cal 30 (d + 1) d
  | none => scanNext cal 30 (d + 1) d

/-- The result of `get_trading_status` in trading_hours.py.  The
holiday/weekday echo fields and the derived `time_until_next` seconds
counter are omitted; `next_event_time` is (day, minute-of-day). -/
structure GoldStatus where
  is_trading_time : Bool
  trading_phase : String
  next_event : Option String
  next_event_time : Option (ℤ × ℕ)
deriving DecidableEq, Repr

/-- `_calculate_next_event` in trading_hours.py (minutes: 08:50 = 530,
15:30 = 930, 19:50 = 1190, 02:30 = 150, 09:00 = 540).  The third branch
(02:30-08:50) is unreachable — the first branch already covers t < 08:50
— and is kept to mirror the source. -/
def calc_next_event (cal : GoldCalendar) (d : ℤ) (t : ℕ) : GoldStatus :=
  if t < 530 then
    ⟨false, "closed", some "day_auction", some (d, 530)⟩
  else if 930 ≤ t ∧ t < 1190 then
    if weekday d < 4 then
      ⟨false, "closed", some "night_auction", some (d, 1190)⟩
    else
      ⟨false, "closed", some "day_open", some (find_next_trading_day cal d, 540)⟩
  else if 150 ≤ t ∧ t < 530 then
    ⟨false, "closed", some "day_open", some (d, 540)⟩
  else
    ⟨false, "closed", some "day_open", some (find_next_trading_day cal d, 540)⟩

/-- `get_trading_status` in trading_hours.py, for gold, at calendar day
`d` and minute-of-day `t` (08:50 = 530, 08:59 = 539, 09:00 = 540,
15:30 = 930, 19:50 = 1190, 19:59 = 1199, 20:00 = 1200, 02:30 = 150). -/
def get_trading_status (cal : GoldCalendar) (d : ℤ) (t : ℕ) : GoldStatus :=
  if is_trading_day cal d = false then
    ⟨false, "closed", some "day_open", some (find_next_trading_day cal d, 540)⟩
  else if 530 ≤ t ∧ t < 539 then
    ⟨true, "day_auction", some "day_open", some (d, 540)⟩
  else if 540 ≤ t ∧ t < 930 then
    ⟨true, "day_session", some "day_close", some (d, 930)⟩
  else if weekday d < 4 ∧ 1190 ≤ t ∧ t < 1199 then
    ⟨true, "night_auction", some "night_open", some (d, 1200)⟩
  else if weekday d < 4 ∧ 1200 ≤ t then
    ⟨true, "night_session", some "night_close", some (d + 1, 150)⟩
  else if t < 150 ∧ weekday (d - 1) < 4 ∧ cal.isGoldHoliday (d - 1) = false then
    ⟨true, "night_session", some "night_close", some (d, 150)⟩
  else
    calc_next_event cal d t

/-- Calendar used to refute C3: day 4 (a Friday) is a gold holiday, all
other days are not, and the exchange-calendar lookup has no data. -/
def c3cal : GoldCalendar :=
  ⟨fun d => decide (d = 4), fun _ => none⟩

/-- C3-counterexample: at 01:00 (minute 60) on day 4 — a holiday Friday
whose previous day (day 3, a Thursday) is a normal trading day with a
night session — the claim predicts `is_trading_time = true` with phase
`night_session`, but `get_trading_status` reports the day as closed,
because the early not-a-trading-day return fires before the 00:00-02:30
night-window check. -/
theorem night_window_holiday_counterexample :
    weekday 3 < 4 ∧ c3cal.isGoldHoliday 3 = false ∧ (60 : ℕ) < 150 ∧
      (get_trading_status c3cal 4 60).is_trading_time = false ∧
      (get_trading_status c3cal 4 60).trading_phase = "closed" := by
  decide

/-- C3 (amended): for a time of day in [00:00, 02:30), `get_trading_status`
reports an in-session `night_session` (with next event `night_close` at
02:30 the same day) if and only if the *current* day is itself a gold
trading day AND the previous calendar day has weekday Monday-Thursday
and is not a gold holiday. -/
theorem night_window_attribution (cal : GoldCalendar) (d : ℤ) (t : ℕ)
    (ht : t < 150) :
    (((get_trading_status cal d t).is_trading_time = true ∧
        (get_trading_status cal d t).trading_phase = "night_session") ↔
      (is_trading_day cal d = true ∧ weekday (d - 1) < 4 ∧
        cal.isGoldHoliday (d - 1) = false)) ∧
      ((is_trading_day cal d = true ∧ weekday (d - 1) < 4 ∧
          cal.isGoldHoliday (d - 1) = false) →
        (get_trading_status cal d t).next_event = some "night_close" ∧
          (get_trading_status cal d t).next_event_time = some (d, 150)) := by
  unfold get_trading_status
  by_cases htd : is_trading_day cal d = false
  · rw [if_pos htd]
    refine ⟨iff_of_false (by simp) (by simp [htd]), ?_⟩
    intro hcon
    rw [htd] at hcon
    exact absurd hcon.1 (by simp)
  · rw [if_neg htd]
    rw [if_neg (by omega), if_neg (by omega), if_neg (by omega), if_neg (by omega)]
    by_cases hyest : weekday (d - 1) < 4 ∧ cal.isGoldHoliday (d - 1) = false
    · rw [if_pos ⟨ht, hyest⟩]
      have htd' : is_trading_day cal d = true := by
        simpa using htd
      exact ⟨iff_of_true ⟨rfl, rfl⟩ ⟨htd', hyest⟩, fun _ => ⟨rfl, rfl⟩⟩
    · rw [if_neg (by intro hcon; exact hyest hcon.2)]
      unfold calc_next_event
      rw [if_pos (by omega)]
      refine ⟨iff_of_false (by simp) (by intro hcon; exact hyest hcon.2), ?_⟩
      intro hcon
      exact absurd hcon.2 hyest

/-- Witness for `night_window_attribution`: day 1 (a Tuesday, not a
holiday, preceded by a Monday) at 01:00 is in the night session. -/
theorem night_window_attribution_witness :
    (((get_trading_status ⟨fun _ => false, fun _ => none⟩ 1 60).is_trading_time = true ∧
        (get_trading_status ⟨fun _ => false, fun _ => none⟩ 1 60).trading_phase =
          "night_session") ↔
      (is_trading_day ⟨fun _ => false, fun _ => none⟩ 1 = true ∧
        weekday (1 - 1) < 4 ∧
        (⟨fun _ => false, fun _ => none⟩ : GoldCalendar).isGoldHoliday (1 - 1) = false)) ∧
      ((is_trading_day ⟨fun _ => false, fun _ => none⟩ 1 = true ∧
          weekday (1 - 1) < 4 ∧
          (⟨fun _ => false, fun _ => none⟩ : GoldCalendar).isGoldHoliday (1 - 1) = false) →
        (get_trading_status ⟨fun _ => false, fun _ => none⟩ 1 60).next_event =
            some "night_close" ∧
          (get_trading_status ⟨fun _ => false, fun _ => none⟩ 1 60).next_event_time =
            some (1, 150)) := by
  exact night_window_attribution ⟨fun _ => false, fun _ => none⟩ 1 60 (by norm_num)

/-- Calendar used to refute the Friday half of C7: no holidays at all. -/
def c7cal : GoldCalendar :=
  ⟨fun _ => false, fun _ => none⟩

/-- C7-counterexample: day 4 is a non-holiday Friday; at 21:00
(minute 1260) the claim predicts phase `night_session`, but
`get_trading_status` reports phase `closed` with `is_trading_time =
false` — Friday has no night session — and the next event is Monday's
`day_open` (day 7 at 09:00). -/
theorem friday_night_counterexample :
    weekday 4 = 4 ∧ c7cal.isGoldHoliday 4 = false ∧
      (get_trading_status c7cal 4 1260).trading_phase ≠ "night_session" ∧
      get_trading_status c7cal 4 1260 =
        ⟨false, "closed", some "day_open", some (7, 540)⟩ := by
  decide

theorem scanNext_weekend (cal : GoldCalendar) (e : ℤ) (hfri : e % 7 = 4)
    (hmon : cal.isGoldHoliday (e + 3) = false) :
    scanNext cal 30 (e + 1) e = e + 3 := by
  have ht1 : is_trading_day cal (e + 1) = false := by
    unfold is_trading_day
    rw [if_pos (show 5 ≤ weekday (e + 1) by show 5 ≤ (e + 1) % 7; omega)]
  have ht2 : is_trading_day cal (e + 1 + 1) = false := by
    unfold is_trading_day
    rw [if_pos (show 5 ≤ weekday (e + 1 + 1) by show 5 ≤ (e + 1 + 1) % 7; omega)]
  have ht3 : is_trading_day cal (e + 1 + 1 + 1) = true := by
    unfold is_trading_day
    rw [if_neg (show ¬ 5 ≤ weekday (e + 1 + 1 + 1) by show ¬ 5 ≤ (e + 1 + 1 + 1) % 7; omega)]
    rw [show e + 1 + 1 + 1 = e + 3 by ring, hmon]
    simp
  rw [show scanNext cal 30 (e + 1) e =
      if is_trading_day cal (e + 1) = true then e + 1
      else scanNext cal 29 (e + 1 + 1) e from rfl]
  rw [if_neg (by simp [ht1])]
  rw [show scanNext cal 29 (e + 1 + 1) e =
      if is_trading_day cal (e + 1 + 1) = true then e + 1 + 1
      else scanNext cal 28 (e + 1 + 1 + 1) e from rfl]
  rw [if_neg (by simp [ht2])]
  rw [show scanNext cal 28 (e + 1 + 1 + 1) e =
      if is_trading_day cal (e + 1 + 1 + 1) = true then e + 1 + 1 + 1
      else scanNext cal 27 (e + 1 + 1 + 1 + 1) e from rfl]
  rw [if_pos (by simp [ht3])]
  ring

/-- C7 (amended): on a non-holiday Tuesday at 09:15 `get_trading_status`
reports phase `day_session`, in session, next event `day_close` at 15:30
the same day; on a non-holiday Friday at 21:00 it reports phase `closed`,
not in session (Friday has no night session), with next event `day_open`
at 09:00 on the following Monday (assumed to be a trading day). -/
theorem tuesday_and_friday_status (cal : GoldCalendar) (d e : ℤ)
    (htue : weekday d = 1) (hdhol : cal.isGoldHoliday d = false)
    (hfri : weekday e = 4) (hehol : cal.isGoldHoliday e = false)
    (hmon : cal.isGoldHoliday (e + 3) = false) :
    get_trading_status cal d 555 =
        ⟨true, "day_session", some "day_close", some (d, 930)⟩ ∧
      get_trading_status cal e 1260 =
        ⟨false, "closed", some "day_open", some (e + 3, 540)⟩ := by
  have htd : is_trading_day cal d = true := by
    unfold is_trading_day
    rw [if_neg (show ¬ 5 ≤ weekday d by rw [htue]; norm_num), hdhol]
    simp
  have hte : is_trading_day cal e = true := by
    unfold is_trading_day
    rw [if_neg (show ¬ 5 ≤ weekday e by rw [hfri]; norm_num), hehol]
    simp
  constructor
  · unfold get_trading_status
    rw [if_neg (by simp [htd]), if_neg (by omega), if_pos ⟨by omega, by omega⟩]
  · unfold get_trading_status
    rw [if_neg (by simp [hte]), if_neg (by omega), if_neg (by omega),
      if_neg (by rw [hfri]; omega), if_neg (by rw [hfri]; omega), if_neg (by omega)]
    unfold calc_next_event
    rw [if_neg (by omega), if_neg (by omega), if_neg (by omega)]
    have hfind : find_next_trading_day cal e = e + 3 := by
      unfold find_next_trading_day
      rw [hehol]
      exact scanNext_weekend cal e hfri hmon
    rw [hfind]

/-- Witness for `tuesday_and_friday_status` on a holiday-free calendar:
day 1 is a Tuesday, day 4 a Friday, day 7 the following Monday. -/
theorem tuesday_and_friday_status_witness :
    get_trading_status ⟨fun _ => false, fun _ => none⟩ 1 555 =
        ⟨true, "day_session", some "day_close", some (1, 930)⟩ ∧
      get_trading_status ⟨fun _ => false, fun _ => none⟩ 4 1260 =
        ⟨false, "closed", some "day_open", some ((4 : ℤ) + 3, 540)⟩ := by
  exact tuesday_and_friday_status ⟨fun _ => false, fun _ => none⟩ 1 4
    (by decide) rfl (by decide) rfl rfl

/-! ## Profit calculator (`calculate_target_prices`,
`calculate_current_profit`, `/api/calculate` in app.py) -/

/-- Python's `round(x, 2)` over ℚ (round half up on the scaled value;
all values the program rounds that matter to the claims lie on the 1/100
grid, where every round-to-nearest convention agrees). -/
def round2 (x : ℚ) : ℚ := (round (x * 100) : ℤ) / 100

/-- Python's `round(x, 4)` over ℚ. -/
def round4 (x : ℚ) : ℚ := (round (x * 10000) : ℤ) / 10000

theorem round2_mono {x y : ℚ} (h : x ≤ y) : round2 x ≤ round2 y := by
  unfold round2
  have hr : round (x * 100) ≤ round (y * 100) := by
    rw [round_eq, round_eq]
    exact Int.floor_mono (by linarith)
  have hr' : ((round (x * 100) : ℤ) : ℚ) ≤ ((round (y * 100) : ℤ) : ℚ) := by
    exact_mod_cast hr
  linarith

theorem round2_grid (n : ℤ) : round2 ((n : ℚ) / 100) = (n : ℚ) / 100 := by
  unfold round2
  rw [div_mul_cancel₀ _ (by norm_num : (100 : ℚ) ≠ 0), round_intCast]

/-- One entry of the list returned by `calculate_target_prices`. -/
structure TargetEntry where
  target_percent : ℚ
  sell_price : ℚ
  profit_amount : ℚ
  actual_multiplier : ℚ
deriving DecidableEq, Repr

/-- The default `fee_rate=0.005` of `calculate_target_prices` and
`calculate_current_profit`. -/
def FEE_RATE : ℚ := 1 / 200

/-- `calculate_target_prices(buy_price, fee_rate)` in app.py:
`sell = buy × (1 + target/100) / (1 − fee)` for the five configured
targets. -/
def calculate_target_prices (buy_price fee_rate : ℚ) : List TargetEntry :=
  [5, 10, 15, 20, 30].map fun target =>
    let profit_rate := target / 100
    let sell_price := buy_price * (1 + profit_rate) / (1 - fee_rate)
    ⟨target, round2 sell_price, round2 (buy_price * profit_rate),
      round4 (sell_price / buy_price)⟩

/-- `calculate_current_profit(buy_price, current_price, fee_rate)` in
app.py. -/
def calculate_current_profit (buy_price current_price fee_rate : ℚ) : ℚ :=
  if buy_price ≤ 0 then 0
  else
    let actual_receive := current_price * (1 - fee_rate)
    round2 ((actual_receive - buy_price) / buy_price * 100)

/-- The JSON payload of a successful `POST /api/calculate`. -/
structure CalcResp where
  targets : List TargetEntry
  current_profit : ℚ
deriving DecidableEq, Repr

/-- The `/api/calculate` route handler (app.py lines 1193-1210): rejects
non-positive `buy_price`, otherwise returns the five targets (at the
default fee rate) and the realized profit rate at `current_price`. -/
def calculate_route (buy_price current_price : ℚ) : Option CalcResp :=
  if buy_price ≤ 0 then none
  else some ⟨calculate_target_prices buy_price FEE_RATE,
    calculate_current_profit buy_price current_price FEE_RATE⟩

/-- C8: for every positive buy price, `POST /api/calculate` returns
exactly five target entries with target percents 5/10/15/20/30, each
sell price equal to `buy × (1 + target/100) / (1 − 0.005)` rounded to 2
decimals, and `current_profit` equal to
`((current × (1 − 0.005)) − buy) / buy × 100` rounded to 2 decimals. -/
theorem calculate_route_spec (buy current : ℚ) (hbuy : 0 < buy) :
    ∃ r, calculate_route buy current = some r ∧
      r.targets.map (·.target_percent) = [5, 10, 15, 20, 30] ∧
      r.targets.length = 5 ∧
      (∀ e ∈ r.targets,
        e.sell_price = round2 (buy * (1 + e.target_percent / 100) / (1 - 1 / 200))) ∧
      r.current_profit = round2 ((current * (1 - 1 / 200) - buy) / buy * 100) := by
  unfold calculate_route
  rw [if_neg (not_le.2 hbuy)]
  refine ⟨_, rfl, rfl, rfl, ?_, ?_⟩
  · intro e he
    unfold calculate_target_prices at he
    simp only [List.map_cons, List.map_nil] at he
    fin_cases he <;> rfl
  · show calculate_current_profit buy current FEE_RATE = _
    unfold calculate_current_profit
    rw [if_neg (not_le.2 hbuy)]
    rfl

/-- Witness for `calculate_route_spec` at `buy = 500`, `current = 560`,
together with the spec's worked example: the 10% target yields a sell
price of 552.76, and the realized profit is 11.44. -/
theorem calculate_route_spec_witness :
    (∃ r, calculate_route 500 560 = some r ∧
        r.targets.map (·.target_percent) = [5, 10, 15, 20, 30] ∧
        r.targets.length = 5 ∧
        (∀ e ∈ r.targets,
          e.sell_price = round2 (500 * (1 + e.target_percent / 100) / (1 - 1 / 200))) ∧
        r.current_profit = round2 ((560 * (1 - 1 / 200) - 500) / 500 * 100)) ∧
      (calculate_route 500 560).map (fun r => r.targets.map (·.sell_price)) =
        some [52764 / 100, 55276 / 100, 57789 / 100, 60302 / 100, 65327 / 100] ∧
      (calculate_route 500 560).map (·.current_profit) = some (1144 / 100) := by
  refine ⟨calculate_route_spec 500 560 (by norm_num), ?_, ?_⟩ <;>
    norm_num [calculate_route, calculate_target_prices, calculate_current_profit,
      FEE_RATE, round2, round4, round_eq]

/-! ## 24h summary (`get_24h_summary` in app.py) -/

/-- The summary dict returned by `get_24h_summary`. -/
structure Summary where
  high_24h : ℚ
  low_24h : ℚ
  avg_24h : ℚ
  volatility : ℚ
  count : ℕ
deriving DecidableEq, Repr

/-- `get_24h_summary()` in app.py over the retained history buffer:
`None` on empty history, else high/low/avg of the prices, volatility
= high − low, all rounded to 2 decimals, plus the entry count. -/
def get_24h_summary (history : List GoldQuote) : Option Summary :=
  match history with
  | [] => none
  | q :: rest =>
    let prices := (q :: rest).map (·.price)
    let high := (rest.map (·.price)).foldl max q.price
    let low := (rest.map (·.price)).foldl min q.price
    let avg := prices.sum / prices.length
    some ⟨round2 high, round2 low, round2 avg, round2 (high - low), prices.length⟩

theorem foldl_max_mem (p : ℚ) (l : List ℚ) : l.foldl max p ∈ p :: l := by
  induction l generalizing p with
  | nil => simp
  | cons x l ih =>
    rw [List.foldl_cons]
    rcases List.mem_cons.1 (ih (max p x)) with h1 | h2
    · rw [h1]
      rcases max_choice p x with hc | hc <;> rw [hc]
      · exact List.mem_cons_self _ _
      · exact List.mem_cons.2 (Or.inr (List.mem_cons_self _ _))
    · exact List.mem_cons.2 (Or.inr (List.mem_cons.2 (Or.inr h2)))

theorem le_foldl_max (p : ℚ) (l : List ℚ) : ∀ x ∈ p :: l, x ≤ l.foldl max p := by
  induction l generalizing p with
  | nil =>
    intro x hx
    rw [List.mem_singleton] at hx
    rw [hx]
    exact le_refl _
  | cons y l ih =>
    intro x hx
    rw [List.foldl_cons]
    have hself : max p y ≤ List.foldl max (max p y) l :=
      ih (max p y) (max p y) (List.mem_cons_self _ _)
    rcases List.mem_cons.1 hx with h1 | h2
    · rw [h1]
      exact le_trans (le_max_left p y) hself
    · rcases List.mem_cons.1 h2 with h3 | h4
      · rw [h3]
        exact le_trans (le_max_right p y) hself
      · exact ih (max p y) x (List.mem_cons.2 (Or.inr h4))

theorem foldl_min_mem (p : ℚ) (l : List ℚ) : l.foldl min p ∈ p :: l := by
  induction l generalizing p with
  | nil => simp
  | cons x l ih =>
    rw [List.foldl_cons]
    rcases List.mem_cons.1 (ih (min p x)) with h1 | h2
    · rw [h1]
      rcases min_choice p x with hc | hc <;> rw [hc]
      · exact List.mem_cons_self _ _
      · exact List.mem_cons.2 (Or.inr (List.mem_cons_self _ _))
    · exact List.mem_cons.2 (Or.inr (List.mem_cons.2 (Or.inr h2)))

theorem foldl_min_le (p : ℚ) (l : List ℚ) : ∀ x ∈ p :: l, l.foldl min p ≤ x := by
  induction l generalizing p with
  | nil =>
    intro x hx
    rw [List.mem_singleton] at hx
    rw [hx]
    exact le_refl _
  | cons y l ih =>
    intro x hx
    rw [List.foldl_cons]
    have hself : List.foldl min (min p y) l ≤ min p y :=
      ih (min p y) (min p y) (List.mem_cons_self _ _)
    rcases List.mem_cons.1 hx with h1 | h2
    · rw [h1]
      exact le_trans hself (min_le_left p y)
    · rcases List.mem_cons.1 h2 with h3 | h4
      · rw [h3]
        exact le_trans hself (min_le_right p y)
      · exact ih (min p y) x (List.mem_cons.2 (Or.inr h4))

/-- C6: `get_24h_summary` returns `None` exactly on empty history; on
non-empty history it returns `count` = number of retained entries,
`high` = max price, `low` = min price, `avg` = mean, `volatility` =
high − low, each rounded to 2 decimals, with `high ≥ avg ≥ low` and
`volatility = high − low`.  The hypothesis that every stored price lies
on the 1/100 grid is an invariant of the program: every fetcher rounds
the price to 2 decimals before it is stored. -/
theorem get_24h_summary_spec (history : List GoldQuote)
    (hgrid : ∀ q ∈ history, ∃ n : ℤ, q.price = (n : ℚ) / 100) :
    (get_24h_summary history = none ↔ history = []) ∧
      ∀ s, get_24h_summary history = some s →
        s.count = history.length ∧
        (∀ q ∈ history, q.price ≤ s.high_24h) ∧
        (∃ q ∈ history, q.price = s.high_24h) ∧
        (∀ q ∈ history, s.low_24h ≤ q.price) ∧
        (∃ q ∈ history, q.price = s.low_24h) ∧
        s.avg_24h = round2 ((history.map (·.price)).sum / (history.length : ℚ)) ∧
        s.low_24h ≤ s.avg_24h ∧ s.avg_24h ≤ s.high_24h ∧
        s.volatility = s.high_24h - s.low_24h := by
  cases history with
  | nil =>
    refine ⟨iff_of_true rfl rfl, ?_⟩
    intro s hs
    exact absurd hs (by simp [get_24h_summary])
  | cons q rest =>
    refine ⟨iff_of_false (by simp [get_24h_summary]) (by simp), ?_⟩
    intro s hs
    simp only [get_24h_summary] at hs
    have hsval : s =
        ⟨round2 ((rest.map (·.price)).foldl max q.price),
          round2 ((rest.map (·.price)).foldl min q.price),
          round2 (((q :: rest).map (·.price)).sum /
            (((q :: rest).map (·.price)).length : ℚ)),
          round2 ((rest.map (·.price)).foldl max q.price -
            (rest.map (·.price)).foldl min q.price),
          ((q :: rest).map (·.price)).length⟩ := (Option.some.inj hs).symm
    have hmemM : (rest.map (·.price)).foldl max q.price ∈ (q :: rest).map (·.price) := by
      rw [List.map_cons]
      exact foldl_max_mem q.price (rest.map (·.price))
    have hmemm : (rest.map (·.price)).foldl min q.price ∈ (q :: rest).map (·.price) := by
      rw [List.map_cons]
      exact foldl_min_mem q.price (rest.map (·.price))
    obtain ⟨qM, hqM, hqMp⟩ := List.mem_map.1 hmemM
    obtain ⟨qm, hqm, hqmp⟩ := List.mem_map.1 hmemm
    obtain ⟨nM, hnM⟩ := hgrid qM hqM
    obtain ⟨nm, hnm⟩ := hgrid qm hqm
    have hMgrid : (rest.map (·.price)).foldl max q.price = (nM : ℚ) / 100 := by
      rw [← hqMp, hnM]
    have hmgrid : (rest.map (·.price)).foldl min q.price = (nm : ℚ) / 100 := by
      rw [← hqmp, hnm]
    have hroundM : round2 ((rest.map (·.price)).foldl max q.price) =
        (rest.map (·.price)).foldl max q.price := by
      rw [hMgrid, round2_grid]
    have hroundm : round2 ((rest.map (·.price)).foldl min q.price) =
        (rest.map (·.price)).foldl min q.price := by
      rw [hmgrid, round2_grid]
    have hub : ∀ x ∈ (q :: rest).map (·.price),
        x ≤ (rest.map (·.price)).foldl max q.price := by
      intro x hx
      rw [List.map_cons] at hx
      exact le_foldl_max q.price (rest.map (·.price)) x hx
    have hlb : ∀ x ∈ (q :: rest).map (·.price),
        (rest.map (·.price)).foldl min q.price ≤ x := by
      intro x hx
      rw [List.map_cons] at hx
      exact foldl_min_le q.price (rest.map (·.price)) x hx
    have hlenpos : (0 : ℚ) < (((q :: rest).map (·.price)).length : ℚ) := by
      rw [List.length_map, List.length_cons]
      positivity
    have hsumub : ((q :: rest).map (·.price)).sum ≤
        (((q :: rest).map (·.price)).length : ℚ) *
          (rest.map (·.price)).foldl max q.price := by
      have h := List.sum_le_card_nsmul ((q :: rest).map (·.price))
        ((rest.map (·.price)).foldl max q.price) hub
      rwa [nsmul_eq_mul] at h
    have hsumlb : (((q :: rest).map (·.price)).length : ℚ) *
        (rest.map (·.price)).foldl min q.price ≤
          ((q :: rest).map (·.price)).sum := by
      have h := List.card_nsmul_le_sum ((q :: rest).map (·.price))
        ((rest.map (·.price)).foldl min q.price) hlb
      rwa [nsmul_eq_mul] at h
    have havgub : ((q :: rest).map (·.price)).sum /
        (((q :: rest).map (·.price)).length : ℚ) ≤
          (rest.map (·.price)).foldl max q.price := by
      rw [div_le_iff₀ hlenpos]
      linarith
    have havglb : (rest.map (·.price)).foldl min q.price ≤
        ((q :: rest).map (·.price)).sum /
          (((q :: rest).map (·.price)).length : ℚ) := by
      rw [le_div_iff₀ hlenpos]
      linarith
    refine ⟨?_, ?_, ?_, ?_, ?_, ?_, ?_, ?_, ?_⟩
    · rw [hsval]
      exact List.length_map _ _
    · intro q' hq'
      rw [hsval]
      show q'.price ≤ round2 ((rest.map (·.price)).foldl max q.price)
      rw [hroundM]
      exact hub q'.price (List.mem_map.2 ⟨q', hq', rfl⟩)
    · refine ⟨qM, hqM, ?_⟩
      rw [hsval]
      show qM.price = round2 ((rest.map (·.price)).foldl max q.price)
      rw [hroundM, hqMp]
    · intro q' hq'
      rw [hsval]
      show round2 ((rest.map (·.price)).foldl min q.price) ≤ q'.price
      rw [hroundm]
      exact hlb q'.price (List.mem_map.2 ⟨q', hq', rfl⟩)
    · refine ⟨qm, hqm, ?_⟩
      rw [hsval]
      show qm.price = round2 ((rest.map (·.price)).foldl min q.price)
      rw [hroundm, hqmp]
    · rw [hsval]
      show round2 (((q :: rest).map (·.price)).sum /
          ((((q :: rest).map (·.price)).length : ℕ) : ℚ)) = _
      rw [List.length_map]
    · rw [hsval]
      show round2 ((rest.map (·.price)).foldl min q.price) ≤
        round2 (((q :: rest).map (·.price)).sum /
          (((q :: rest).map (·.price)).length : ℚ))
      exact round2_mono havglb
    · rw [hsval]
      show round2 (((q :: rest).map (·.price)).sum /
          (((q :: rest).map (·.price)).length : ℚ)) ≤
        round2 ((rest.map (·.price)).foldl max q.price)
      exact round2_mono havgub
    · rw [hsval]
      show round2 ((rest.map (·.price)).foldl max q.price -
          (rest.map (·.price)).foldl min q.price) =
        round2 ((rest.map (·.price)).foldl max q.price) -
          round2 ((rest.map (·.price)).foldl min q.price)
      rw [hroundM, hroundm]
      rw [hMgrid, hmgrid]
      rw [div_sub_div_same]
      rw [← Int.cast_sub]
      rw [round2_grid]

/-- A concrete two-entry history (prices 550.25 and 551.75) used to
witness `get_24h_summary_spec`. -/
def sampleHistory : List GoldQuote :=
  [⟨55025 / 100, 0, 0, 0, 0, 0, 0, 0, "a"⟩, ⟨55175 / 100, 0, 0, 0, 0, 0, 0, 0, "b"⟩]

/-- Witness for `get_24h_summary_spec` on `sampleHistory`. -/
theorem get_24h_summary_spec_witness :
    (get_24h_summary sampleHistory = none ↔ sampleHistory = []) ∧
      ∀ s, get_24h_summary sampleHistory = some s →
        s.count = sampleHistory.length ∧
        (∀ q ∈ sampleHistory, q.price ≤ s.high_24h) ∧
        (∃ q ∈ sampleHistory, q.price = s.high_24h) ∧
        (∀ q ∈ sampleHistory, s.low_24h ≤ q.price) ∧
        (∃ q ∈ sampleHistory, q.price = s.low_24h) ∧
        s.avg_24h = round2 ((sampleHistory.map (·.price)).sum /
          (sampleHistory.length : ℚ)) ∧
        s.low_24h ≤ s.avg_24h ∧ s.avg_24h ≤ s.high_24h ∧
        s.volatility = s.high_24h - s.low_24h := by
  exact get_24h_summary_spec sampleHistory
    (by
      intro q hq
      unfold sampleHistory at hq
      rcases List.mem_cons.1 hq with h1 | h2
      · exact ⟨55025, by rw [h1]; norm_num⟩
      · rcases List.mem_cons.1 h2 with h3 | h4
        · exact ⟨55175, by rw [h3]; norm_num⟩
        · cases h4)

/-! ## Fund watchlist, cache and bulk fetch (`get_funds`, `add_fund`,
`delete_fund` in app.py)

The per-code fund cache is modelled as a function `String → Option
FundQuote`; Python's in-place dict mutations become functional updates.
`fetch_fund_data` (multi-source, network) is abstracted as the pure
environment `fetch`. -/

/-- A fund quote record as produced by `fetch_fund_data` and stored in
`fund_cache`.  The placeholder "unavailable" record built by `get_funds`
has no `timestamp` key in Python; it is modelled with `timestamp = 0`
and is never written into the cache. -/
structure FundQuote where
  code : String
  name : String
  price : ℚ
  change : ℚ
  time_str : String
  source : String
  timestamp : ℚ
deriving DecidableEq, Repr

/-- `CACHE_TTL_SECONDS = 60` in app.py. -/
def CACHE_TTL_SECONDS : ℚ := 60

/-- `FUND_STALE_TTL_SECONDS = 300` in app.py. -/
def FUND_STALE_TTL_SECONDS : ℚ := 300

/-- List-of-chars helper: does the text start with the pattern? -/
def charsStartWith : List Char → List Char → Bool
  | [], _ => true
  | _ :: _, [] => false
  | p :: ps, c :: cs => p == c && charsStartWith ps cs

/-- List-of-chars helper: does the pattern occur anywhere in the text? -/
def charsContain (pat : List Char) : List Char → Bool
  | [] => pat.isEmpty
  | c :: cs => charsStartWith pat (c :: cs) || charsContain pat cs

/-- Python's `pat in s` substring test. -/
def strContains (s pat : String) : Bool := charsContain pat.toList s.toList

/-- The source-field annotation pattern used twice in `get_funds`:
append the tag to `source` unless it is already present. -/
def annotSource (tag : String) (q : FundQuote) : FundQuote :=
  if strContains q.source tag then q else { q with source := q.source ++ tag }

/-- Pointwise update of a cache/dict. -/
def cacheUpdate (c : String → Option FundQuote) (k : String) (v : FundQuote) :
    String → Option FundQuote :=
  fun x => if x = k then some v else c x

/-- State of the first loop of `get_funds`: the partial `temp_results`
dict and the `codes_to_fetch` / `codes_to_refresh` lists. -/
structure ClassifyAcc where
  temp : String → Option FundQuote
  toFetch : List String
  toRefresh : List String

/-- One iteration of the first loop of `get_funds` (app.py lines
1281-1293): fresh cache hits are served, in fast mode stale-but-usable
hits are served with a "(缓存)" annotation and queued for background
refresh, everything else is queued for synchronous fetch. -/
def classifyStep (cache : String → Option FundQuote) (now : ℚ) (fast : Bool)
    (acc : ClassifyAcc) (code : String) : ClassifyAcc :=
  match cache code with
  | some ci =>
    if now - ci.timestamp < CACHE_TTL_SECONDS then
      { acc with temp := cacheUpdate acc.temp code ci }
    else if fast = true ∧ now - ci.timestamp < FUND_STALE_TTL_SECONDS then
      { acc with
        temp := cacheUpdate acc.temp code (annotSource "(缓存)" ci)
        toRefresh := acc.toRefresh ++ [code] }
    else
      { acc with toFetch := acc.toFetch ++ [code] }
  | none => { acc with toFetch := acc.toFetch ++ [code] }

/-- The first loop of `get_funds` over the watchlist. -/
def classifyAll (cache : String → Option FundQuote) (now : ℚ) (fast : Bool) :
    ClassifyAcc → List String → ClassifyAcc
  | acc, [] => acc
  | acc, code :: rest =>
    classifyAll cache now fast (classifyStep cache now fast acc code) rest

/-- The "加载失败" placeholder record of `get_funds` (no prior cache and
the synchronous fetch failed). -/
def placeholder (code : String) : FundQuote :=
  ⟨code, "加载失败", 0, 0, "--", "Error", 0⟩

/-- One iteration of the write-back loop of `get_funds` (app.py lines
1300-1320): a successful fetch supersedes the cache entry whole; on
failure an existing cache entry has "(过期)" appended to its `source`
field *in place* (mutating the stored dict) and is served; otherwise the
placeholder is served.  Python iterates over the pre-computed
`fetched_data_list = map(fetch_fund_data, codes_to_fetch)`; with `fetch`
a pure function this is the same as fetching inside the loop. -/
def mergeStep (fetch : String → Option FundQuote)
    (acc : (String → Option FundQuote) × (String → Option FundQuote))
    (code : String) :
    (String → Option FundQuote) × (String → Option FundQuote) :=
  match fetch code with
  | some d => (cacheUpdate acc.1 code d, cacheUpdate acc.2 code d)
  | none =>
    match acc.1 code with
    | some old =>
      let old2 := annotSource "(过期)" old
      (cacheUpdate acc.1 code old2, cacheUpdate acc.2 code old2)
    | none => (acc.1, cacheUpdate acc.2 code (placeholder code))

/-- The write-back loop of `get_funds` over `codes_to_fetch`, threading
the shared `fund_cache` and `temp_results`. -/
def mergeAll (fetch : String → Option FundQuote) :
    (String → Option FundQuote) × (String → Option FundQuote) → List String →
      (String → Option FundQuote) × (String → Option FundQuote)
  | acc, [] => acc
  | acc, code :: rest => mergeAll fetch (mergeStep fetch acc code) rest

/-- Result of `GET /api/funds`: the response list, the post-call
`fund_cache`, and the codes handed to `refresh_fund_cache_async`. -/
structure FundsOut where
  results : List FundQuote
  cache2 : String → Option FundQuote
  toRefresh : List String

/-- `get_funds` (app.py lines 1266-1327): classify the watchlist against
the cache, fetch the remainder, and assemble one result per watchlist
code in order (`[temp_results.get(code) for code in current_watchlist if
temp_results.get(code)]`; every stored dict is non-empty, hence truthy). -/
def get_funds (wl : List String) (cache : String → Option FundQuote) (now : ℚ)
    (fast : Bool) (fetch : String → Option FundQuote) : FundsOut :=
  let acc := classifyAll cache now fast ⟨fun _ => none, [], []⟩ wl
  let merged := mergeAll fetch (cache, acc.temp) acc.toFetch
  ⟨wl.filterMap merged.2, merged.1, if fast = true then acc.toRefresh else []⟩

/-- Coherence of a code-keyed map: every stored record's `code` field is
its key. -/
def Coherent (m : String → Option FundQuote) : Prop :=
  ∀ c q, m c = some q → q.code = c

theorem cacheUpdate_coherent (m : String → Option FundQuote) (k : String)
    (v : FundQuote) (hm : Coherent m) (hv : v.code = k) :
    Coherent (cacheUpdate m k v) := by
  intro c q hq
  unfold cacheUpdate at hq
  by_cases he : c = k
  · rw [if_pos he] at hq
    rw [← Option.some.inj hq, hv, he]
  · rw [if_neg he] at hq
    exact hm c q hq

theorem cacheUpdate_isSome_self (m : String → Option FundQuote) (k : String)
    (v : FundQuote) : (cacheUpdate m k v k).isSome = true := by
  unfold cacheUpdate
  rw [if_pos rfl]
  rfl

theorem cacheUpdate_isSome_mono (m : String → Option FundQuote) (k : String)
    (v : FundQuote) (c : String) (h : (m c).isSome = true) :
    (cacheUpdate m k v c).isSome = true := by
  unfold cacheUpdate
  by_cases he : c = k
  · rw [if_pos he]
    rfl
  · rw [if_neg he]
    exact h

theorem annotSource_code (tag : String) (q : FundQuote) :
    (annotSource tag q).code = q.code := by
  unfold annotSource
  split <;> rfl

theorem classifyStep_temp_mono (cache : String → Option FundQuote) (now : ℚ)
    (fast : Bool) (acc : ClassifyAcc) (code c : String)
    (h : (acc.temp c).isSome = true) :
    ((classifyStep cache now fast acc code).temp c).isSome = true := by
  cases hcc : cache code with
  | none =>
    simp only [classifyStep, hcc]
    exact h
  | some ci =>
    simp only [classifyStep, hcc]
    by_cases h1 : now - ci.timestamp < CACHE_TTL_SECONDS
    · rw [if_pos h1]
      exact cacheUpdate_isSome_mono _ _ _ _ h
    · rw [if_neg h1]
      by_cases h2 : fast = true ∧ now - ci.timestamp < FUND_STALE_TTL_SECONDS
      · rw [if_pos h2]
        exact cacheUpdate_isSome_mono _ _ _ _ h
      · rw [if_neg h2]
        exact h

theorem classifyStep_toFetch_mono (cache : String → Option FundQuote) (now : ℚ)
    (fast : Bool) (acc : ClassifyAcc) (code c : String)
    (h : c ∈ acc.toFetch) :
    c ∈ (classifyStep cache now fast acc code).toFetch := by
  cases hcc : cache code with
  | none =>
    simp only [classifyStep, hcc]
    exact List.mem_append.2 (Or.inl h)
  | some ci =>
    simp only [classifyStep, hcc]
    by_cases h1 : now - ci.timestamp < CACHE_TTL_SECONDS
    · rw [if_pos h1]
      exact h
    · rw [if_neg h1]
      by_cases h2 : fast = true ∧ now - ci.timestamp < FUND_STALE_TTL_SECONDS
      · rw [if_pos h2]
        exact h
      · rw [if_neg h2]
        exact List.mem_append.2 (Or.inl h)

theorem classifyStep_covers (cache : String → Option FundQuote) (now : ℚ)
    (fast : Bool) (acc : ClassifyAcc) (code : String) :
    ((classifyStep cache now fast acc code).temp code).isSome = true ∨
      code ∈ (classifyStep cache now fast acc code).toFetch := by
  cases hcc : cache code with
  | none =>
    simp only [classifyStep, hcc]
    exact Or.inr (List.mem_append.2 (Or.inr (List.mem_singleton.2 rfl)))
  | some ci =>
    simp only [classifyStep, hcc]
    by_cases h1 : now - ci.timestamp < CACHE_TTL_SECONDS
    · rw [if_pos h1]
      exact Or.inl (cacheUpdate_isSome_self _ _ _)
    · rw [if_neg h1]
      by_cases h2 : fast = true ∧ now - ci.timestamp < FUND_STALE_TTL_SECONDS
      · rw [if_pos h2]
        exact Or.inl (cacheUpdate_isSome_self _ _ _)
      · rw [if_neg h2]
        exact Or.inr (List.mem_append.2 (Or.inr (List.mem_singleton.2 rfl)))

theorem classifyAll_covers (cache : String → Option FundQuote) (now : ℚ)
    (fast : Bool) (wl : List String) (acc : ClassifyAcc) (c : String)
    (hc : c ∈ wl ∨ (acc.temp c).isSome = true ∨ c ∈ acc.toFetch) :
    ((classifyAll cache now fast acc wl).temp c).isSome = true ∨
      c ∈ (classifyAll cache now fast acc wl).toFetch := by
  induction wl generalizing acc with
  | nil =>
    rcases hc with h | h | h
    · cases h
    · exact Or.inl h
    · exact Or.inr h
  | cons w rest ih =>
    show ((classifyAll cache now fast (classifyStep cache now fast acc w) rest).temp c).isSome
        = true ∨
      c ∈ (classifyAll cache now fast (classifyStep cache now fast acc w) rest).toFetch
    apply ih
    rcases hc with h | h | h
    · rcases List.mem_cons.1 h with h1 | h2
      · subst h1
        rcases classifyStep_covers cache now fast acc c with h3 | h3
        · exact Or.inr (Or.inl h3)
        · exact Or.inr (Or.inr h3)
      · exact Or.inl h2
    · exact Or.inr (Or.inl (classifyStep_temp_mono cache now fast acc w c h))
    · exact Or.inr (Or.inr (classifyStep_toFetch_mono cache now fast acc w c h))

theorem classifyStep_coherent (cache : String → Option FundQuote) (now : ℚ)
    (fast : Bool) (acc : ClassifyAcc) (code : String)
    (hcache : Coherent cache) (h : Coherent acc.temp) :
    Coherent (classifyStep cache now fast acc code).temp := by
  cases hcc : cache code with
  | none =>
    simp only [classifyStep, hcc]
    exact h
  | some ci =>
    simp only [classifyStep, hcc]
    have hci : ci.code = code := hcache code ci hcc
    by_cases h1 : now - ci.timestamp < CACHE_TTL_SECONDS
    · rw [if_pos h1]
      exact cacheUpdate_coherent _ _ _ h hci
    · rw [if_neg h1]
      by_cases h2 : fast = true ∧ now - ci.timestamp < FUND_STALE_TTL_SECONDS
      · rw [if_pos h2]
        exact cacheUpdate_coherent _ _ _ h ((annotSource_code _ ci).trans hci)
      · rw [if_neg h2]
        exact h

theorem classifyAll_coherent (cache : String → Option FundQuote) (now : ℚ)
    (fast : Bool) (wl : List String) (acc : ClassifyAcc)
    (hcache : Coherent cache) (h : Coherent acc.temp) :
    Coherent (classifyAll cache now fast acc wl).temp := by
  induction wl generalizing acc with
  | nil => exact h
  | cons w rest ih =>
    exact ih (classifyStep cache now fast acc w)
      (classifyStep_coherent cache now fast acc w hcache h)

theorem mergeStep_temp_mono (fetch : String → Option FundQuote)
    (acc : (String → Option FundQuote) × (String → Option FundQuote))
    (code c : String) (h : (acc.2 c).isSome = true) :
    ((mergeStep fetch acc code).2 c).isSome = true := by
  unfold mergeStep
  cases hf : fetch code with
  | some d => exact cacheUpdate_isSome_mono _ _ _ _ h
  | none =>
    cases hc : acc.1 code with
    | some old => exact cacheUpdate_isSome_mono _ _ _ _ h
    | none => exact cacheUpdate_isSome_mono _ _ _ _ h

theorem mergeStep_temp_self (fetch : String → Option FundQuote)
    (acc : (String → Option FundQuote) × (String → Option FundQuote))
    (code : String) :
    ((mergeStep fetch acc code).2 code).isSome = true := by
  unfold mergeStep
  cases hf : fetch code with
  | some d => exact cacheUpdate_isSome_self _ _ _
  | none =>
    cases hc : acc.1 code with
    | some old => exact cacheUpdate_isSome_self _ _ _
    | none => exact cacheUpdate_isSome_self _ _ _

theorem mergeAll_covers (fetch : String → Option FundQuote)
    (codes : List String)
    (acc : (String → Option FundQuote) × (String → Option FundQuote))
    (c : String) (hc : (acc.2 c).isSome = true ∨ c ∈ codes) :
    ((mergeAll fetch acc codes).2 c).isSome = true := by
  induction codes generalizing acc with
  | nil =>
    rcases hc with h | h
    · exact h
    · cases h
  | cons w rest ih =>
    show ((mergeAll fetch (mergeStep fetch acc w) rest).2 c).isSome = true
    apply ih
    rcases hc with h | h
    · exact Or.inl (mergeStep_temp_mono fetch acc w c h)
    · rcases List.mem_cons.1 h with h1 | h2
      · subst h1
        exact Or.inl (mergeStep_temp_self fetch acc c)
      · exact Or.inr h2

theorem mergeStep_coherent (fetch : String → Option FundQuote)
    (acc : (String → Option FundQuote) × (String → Option FundQuote))
    (code : String) (hfetch : Coherent fetch)
    (h1 : Coherent acc.1) (h2 : Coherent acc.2) :
    Coherent (mergeStep fetch acc code).1 ∧ Coherent (mergeStep fetch acc code).2 := by
  unfold mergeStep
  cases hf : fetch code with
  | some d =>
    have hd : d.code = code := hfetch code d hf
    exact ⟨cacheUpdate_coherent _ _ _ h1 hd, cacheUpdate_coherent _ _ _ h2 hd⟩
  | none =>
    cases hc : acc.1 code with
    | some old =>
      have hold : (annotSource "(过期)" old).code = code :=
        (annotSource_code _ old).trans (h1 code old hc)
      exact ⟨cacheUpdate_coherent _ _ _ h1 hold, cacheUpdate_coherent _ _ _ h2 hold⟩
    | none =>
      exact ⟨h1, cacheUpdate_coherent _ _ _ h2 rfl⟩

theorem mergeAll_coherent (fetch : String → Option FundQuote)
    (codes : List String)
    (acc : (String → Option FundQuote) × (String → Option FundQuote))
    (hfetch : Coherent fetch) (h1 : Coherent acc.1) (h2 : Coherent acc.2) :
    Coherent (mergeAll fetch acc codes).2 := by
  induction codes generalizing acc with
  | nil => exact h2
  | cons w rest ih =>
    obtain ⟨g1, g2⟩ := mergeStep_coherent fetch acc w hfetch h1 h2
    exact ih (mergeStep fetch acc w) g1 g2

theorem filterMap_length_all_some (f : String → Option FundQuote)
    (l : List String) (h : ∀ a ∈ l, (f a).isSome = true) :
    (l.filterMap f).length = l.length := by
  induction l with
  | nil => rfl
  | cons a l ih =>
    obtain ⟨b, hb⟩ := Option.isSome_iff_exists.1 (h a (List.mem_cons_self a l))
    rw [List.filterMap_cons, hb, List.length_cons, List.length_cons,
      ih (fun x hx => h x (List.mem_cons.2 (Or.inr hx)))]

theorem filterMap_map_code (f : String → Option FundQuote) (l : List String)
    (h : ∀ a ∈ l, (f a).isSome = true) (hcoh : Coherent f) :
    (l.filterMap f).map (·.code) = l := by
  induction l with
  | nil => rfl
  | cons a l ih =>
    obtain ⟨b, hb⟩ := Option.isSome_iff_exists.1 (h a (List.mem_cons_self a l))
    rw [List.filterMap_cons, hb, List.map_cons, hcoh a b hb,
      ih (fun x hx => h x (List.mem_cons.2 (Or.inr hx)))]

/-- C5: for every watchlist and cache state, `GET /api/funds` returns
exactly one result per requested watchlist code, in the watchlist's
order — whether a code was served fresh, served stale, fetched, or
failed with a placeholder.  The code-coherence hypotheses state that
cache entries and fetched records carry the code they are keyed by,
which holds for everything the program stores. -/
theorem get_funds_complete (wl : List String)
    (cache : String → Option FundQuote) (now : ℚ) (fast : Bool)
    (fetch : String → Option FundQuote)
    (hcache : Coherent cache) (hfetch : Coherent fetch) :
    (get_funds wl cache now fast fetch).results.length = wl.length ∧
      (get_funds wl cache now fast fetch).results.map (·.code) = wl := by
  have hnone : Coherent (fun _ : String => (none : Option FundQuote)) := by
    intro c q hq
    cases hq
  have hsome : ∀ c ∈ wl,
      ((mergeAll fetch (cache, (classifyAll cache now fast ⟨fun _ => none, [], []⟩ wl).temp)
        (classifyAll cache now fast ⟨fun _ => none, [], []⟩ wl).toFetch).2 c).isSome = true := by
    intro c hc
    exact mergeAll_covers fetch _ _ c
      (classifyAll_covers cache now fast wl ⟨fun _ => none, [], []⟩ c (Or.inl hc))
  have hcoh : Coherent
      (mergeAll fetch (cache, (classifyAll cache now fast ⟨fun _ => none, [], []⟩ wl).temp)
        (classifyAll cache now fast ⟨fun _ => none, [], []⟩ wl).toFetch).2 :=
    mergeAll_coherent fetch _ _ hfetch hcache
      (classifyAll_coherent cache now fast wl ⟨fun _ => none, [], []⟩ hcache hnone)
  exact ⟨filterMap_length_all_some _ wl hsome, filterMap_map_code _ wl hsome hcoh⟩

/-- Fresh cache entry for the `get_funds_complete` witness (age 5s). -/
def wqa : FundQuote := ⟨"a", "基金A", 2, 0, "t", "S", 95⟩

/-- Stale cache entry for the `get_funds_complete` witness (age 100s). -/
def wqb : FundQuote := ⟨"b", "基金B", 3, 0, "t", "S", 0⟩

/-- Cache for the `get_funds_complete` witness. -/
def wcache : String → Option FundQuote :=
  fun x => if x = "a" then some wqa else if x = "b" then some wqb else none

/-- Witness for `get_funds_complete`: three codes — one fresh, one stale
(fast mode), one uncached whose fetch fails — still yield three results
in order. -/
theorem get_funds_complete_witness :
    (get_funds ["a", "b", "c"] wcache 100 true (fun _ => none)).results.length =
        ["a", "b", "c"].length ∧
      (get_funds ["a", "b", "c"] wcache 100 true (fun _ => none)).results.map (·.code) =
        ["a", "b", "c"] := by
  refine get_funds_complete ["a", "b", "c"] wcache 100 true (fun _ => none) ?_ ?_
  · intro c q hq
    unfold wcache at hq
    by_cases h1 : c = "a"
    · rw [if_pos h1] at hq
      rw [← Option.some.inj hq, h1]
      rfl
    · rw [if_neg h1] at hq
      by_cases h2 : c = "b"
      · rw [if_pos h2] at hq
        rw [← Option.some.inj hq, h2]
        rfl
      · rw [if_neg h2] at hq
        cases hq
  · intro c q hq
    cases hq

theorem charsStartWith_self (l : List Char) : charsStartWith l l = true := by
  induction l with
  | nil => rfl
  | cons p ps ih =>
    unfold charsStartWith
    rw [ih, beq_self_eq_true]
    rfl

theorem charsContain_append_self (xs pat : List Char) :
    charsContain pat (xs ++ pat) = true := by
  induction xs with
  | nil =>
    cases pat with
    | nil => rfl
    | cons p ps =>
      show (charsStartWith (p :: ps) (p :: ps) || charsContain (p :: ps) ps) = true
      rw [charsStartWith_self]
      rfl
  | cons x xs ih =>
    show (charsStartWith pat (x :: (xs ++ pat)) || charsContain pat (xs ++ pat)) = true
    rw [ih, Bool.or_true]

theorem strContains_append_self (s t : String) :
    strContains (s ++ t) t = true := by
  unfold strContains
  have hdata : (s ++ t).toList = s.toList ++ t.toList := String.data_append s t
  rw [hdata]
  exact charsContain_append_self s.toList t.toList

theorem annotSource_idem (tag : String) (q : FundQuote) :
    annotSource tag (annotSource tag q) = annotSource tag q := by
  by_cases hc : strContains q.source tag = true
  · unfold annotSource
    rw [if_pos hc, if_pos hc]
  · have h1 : annotSource tag q = { q with source := q.source ++ tag } := by
      unfold annotSource
      rw [if_neg hc]
    rw [h1]
    unfold annotSource
    rw [if_pos (strContains_append_self q.source tag)]

theorem mergeStep_cache_other (fetch : String → Option FundQuote)
    (acc : (String → Option FundQuote) × (String → Option FundQuote))
    (w c : String) (hne : c ≠ w) :
    (mergeStep fetch acc w).1 c = acc.1 c := by
  cases hf : fetch w with
  | some d =>
    simp only [mergeStep, hf]
    unfold cacheUpdate
    rw [if_neg hne]
  | none =>
    cases hc1 : acc.1 w with
    | some old =>
      simp only [mergeStep, hf, hc1]
      unfold cacheUpdate
      rw [if_neg hne]
    | none => simp only [mergeStep, hf, hc1]

theorem mergeAll_cache_frame (fetch : String → Option FundQuote)
    (codes : List String) (cache : String → Option FundQuote)
    (acc : (String → Option FundQuote) × (String → Option FundQuote))
    (hinv : ∀ c, acc.1 c = cache c ∨
      (acc.1 c = fetch c ∧ (fetch c).isSome = true) ∨
      (∃ old, cache c = some old ∧ fetch c = none ∧
        acc.1 c = some (annotSource "(过期)" old))) :
    ∀ c, (mergeAll fetch acc codes).1 c = cache c ∨
      ((mergeAll fetch acc codes).1 c = fetch c ∧ (fetch c).isSome = true) ∨
      (∃ old, cache c = some old ∧ fetch c = none ∧
        (mergeAll fetch acc codes).1 c = some (annotSource "(过期)" old)) := by
  induction codes generalizing acc with
  | nil => exact hinv
  | cons w rest ih =>
    refine ih (mergeStep fetch acc w) ?_
    intro c
    by_cases hcw : c = w
    · subst hcw
      cases hf : fetch c with
      | some d =>
        refine Or.inr (Or.inl ⟨?_, rfl⟩)
        simp only [mergeStep, hf]
        unfold cacheUpdate
        rw [if_pos rfl]
      | none =>
        cases hc1 : acc.1 c with
        | none =>
          simp only [mergeStep, hf, hc1]
          rcases hinv c with h | ⟨h, hs⟩ | ⟨old, hold, hfn, hann⟩
          · exact Or.inl (hc1 ▸ h.symm).symm
          · rw [hf] at hs
            cases hs
          · rw [hann] at hc1
            cases hc1
        | some old0 =>
          simp only [mergeStep, hf, hc1]
          rcases hinv c with h | ⟨h, hs⟩ | ⟨old, hold, hfn, hann⟩
          · refine Or.inr (Or.inr ⟨old0, h ▸ hc1, trivial, ?_⟩)
            unfold cacheUpdate
            rw [if_pos rfl]
          · rw [hf] at hs
            cases hs
          · refine Or.inr (Or.inr ⟨old, hold, trivial, ?_⟩)
            have hold0 : old0 = annotSource "(过期)" old :=
              Option.some.inj (hc1.symm.trans hann)
            unfold cacheUpdate
            rw [if_pos rfl, hold0, annotSource_idem]
    · rcases hinv c with h | ⟨h, hs⟩ | ⟨old, hold, hfn, hann⟩
      · exact Or.inl ((mergeStep_cache_other fetch acc w c hcw).trans h)
      · exact Or.inr (Or.inl ⟨(mergeStep_cache_other fetch acc w c hcw).trans h, hs⟩)
      · exact Or.inr (Or.inr ⟨old, hold, hfn,
          (mergeStep_cache_other fetch acc w c hcw).trans hann⟩)

/-- C9 (amended): a cache entry is never updated field-by-field with one
exception: after `get_funds`, each code's entry is either (a) untouched,
(b) superseded whole by a newly fetched record for that code, or (c) —
when the synchronous fetch for that code failed and a prior entry
existed — the stored entry itself with the "(过期)" marker appended to
its `source` field in place (all other fields unchanged).  Case (c)
refutes the original "never partially updated / serving stale leaves the
stored entry unchanged" claim. -/
theorem get_funds_cache_frame (wl : List String)
    (cache : String → Option FundQuote) (now : ℚ) (fast : Bool)
    (fetch : String → Option FundQuote) (c : String) :
    (get_funds wl cache now fast fetch).cache2 c = cache c ∨
      ((get_funds wl cache now fast fetch).cache2 c = fetch c ∧
        (fetch c).isSome = true) ∨
      (∃ old, cache c = some old ∧ fetch c = none ∧
        (get_funds wl cache now fast fetch).cache2 c =
          some (annotSource "(过期)" old)) := by
  exact mergeAll_cache_frame fetch
    (classifyAll cache now fast ⟨fun _ => none, [], []⟩ wl).toFetch cache
    (cache, (classifyAll cache now fast ⟨fun _ => none, [], []⟩ wl).temp)
    (fun _ => Or.inl rfl) c

/-- The cached record used in the C9 counterexample. -/
def c9old : FundQuote := ⟨"a", "基金A", 2, 1, "t", "E", 0⟩

/-- C9-counterexample: serving an expired entry after a failed
synchronous fetch *mutates the stored cache entry*: its `source` field
changes from "E" to "E(过期)" while every other field is kept, so the
entry is partially updated in place rather than left unchanged. -/
theorem stale_serving_mutates_cache :
    (get_funds ["a"] (fun x => if x = "a" then some c9old else none) 400 false
        (fun _ => none)).cache2 "a" =
      some ⟨"a", "基金A", 2, 1, "t", "E(过期)", 0⟩ ∧
      (⟨"a", "基金A", 2, 1, "t", "E(过期)", 0⟩ : FundQuote) ≠ c9old ∧
      (⟨"a", "基金A", 2, 1, "t", "E(过期)", 0⟩ : FundQuote).price = c9old.price ∧
      (⟨"a", "基金A", 2, 1, "t", "E(过期)", 0⟩ : FundQuote).timestamp = c9old.timestamp := by
  refine ⟨?_, by decide, rfl, rfl⟩
  have happ : "E" ++ "(过期)" = "E(过期)" := rfl
  norm_num [get_funds, classifyAll, classifyStep, mergeAll, mergeStep, cacheUpdate,
    annotSource, strContains, charsContain, charsStartWith, happ,
    c9old, CACHE_TTL_SECONDS, FUND_STALE_TTL_SECONDS]

/-! ## Watchlist operations (`add_fund`, `delete_fund` in app.py) -/

/-- The 6-digit code validation of `add_fund` (`not code or not
code.isdigit() or len(code) != 6`; Python's `isdigit` is modelled as
ASCII digits, which is what fund codes contain). -/
def validFundCode (code : String) : Bool :=
  !code.isEmpty && code.toList.all (·.isDigit) && code.length == 6

/-- `add_fund` (app.py lines 1341-1364) as a state transition on
`(fund_watchlist, fund_cache)`: reject a malformed code, reject a code
already present, reject a code whose verification fetch fails, otherwise
append the code once and prime the cache.  The returned Bool is the
`success` flag. -/
def add_fund (wl : List String) (cache : String → Option FundQuote)
    (fetch : String → Option FundQuote) (code : String) :
    List String × (String → Option FundQuote) × Bool :=
  if ¬ validFundCode code = true then (wl, cache, false)
  else if code ∈ wl then (wl, cache, false)
  else
    match fetch code with
    | none => (wl, cache, false)
    | some d => (wl ++ [code], cacheUpdate cache code d, true)

/-- `delete_fund` (app.py lines 1367-1379): remove the code's first
occurrence from the watchlist and drop its cache entry, failing if the
code is absent. -/
def delete_fund (wl : List String) (cache : String → Option FundQuote)
    (code : String) : List String × (String → Option FundQuote) × Bool :=
  if code ∈ wl then
    (wl.erase code, fun x => if x = code then none else cache x, true)
  else (wl, cache, false)

/-- C10: starting from a duplicate-free watchlist, the watchlist
operations preserve the no-duplicates invariant: `add_fund` rejects a
code already present (leaving all state unchanged), a successful add
appends the code exactly once (and only when it was absent), and
`delete_fund` only removes codes. -/
theorem watchlist_ops_nodup (wl : List String)
    (cache fetch : String → Option FundQuote) (code : String)
    (hnd : wl.Nodup) :
    (add_fund wl cache fetch code).1.Nodup ∧
      (delete_fund wl cache code).1.Nodup ∧
      (code ∈ wl → add_fund wl cache fetch code = (wl, cache, false)) ∧
      ((add_fund wl cache fetch code).2.2 = true →
        (add_fund wl cache fetch code).1 = wl ++ [code] ∧ code ∉ wl) ∧
      (delete_fund wl cache code).1.Sublist wl := by
  refine ⟨?_, ?_, ?_, ?_, ?_⟩
  · unfold add_fund
    by_cases hv : ¬ validFundCode code = true
    · rw [if_pos hv]
      exact hnd
    · rw [if_neg hv]
      by_cases hm : code ∈ wl
      · rw [if_pos hm]
        exact hnd
      · rw [if_neg hm]
        cases hf : fetch code with
        | none => exact hnd
        | some d =>
          simp only
          rw [List.nodup_append]
          exact ⟨hnd, List.nodup_singleton code, by simpa using hm⟩
  · unfold delete_fund
    by_cases hm : code ∈ wl
    · rw [if_pos hm]
      exact hnd.erase code
    · rw [if_neg hm]
      exact hnd
  · intro hm
    unfold add_fund
    by_cases hv : ¬ validFundCode code = true
    · rw [if_pos hv]
    · rw [if_neg hv, if_pos hm]
  · unfold add_fund
    by_cases hv : ¬ validFundCode code = true
    · rw [if_pos hv]
      intro hc
      cases hc
    · rw [if_neg hv]
      by_cases hm : code ∈ wl
      · rw [if_pos hm]
        intro hc
        cases hc
      · rw [if_neg hm]
        cases hf : fetch code with
        | none =>
          intro hc
          cases hc
        | some d => exact fun _ => ⟨rfl, hm⟩
  · unfold delete_fund
    by_cases hm : code ∈ wl
    · rw [if_pos hm]
      exact List.erase_sublist code wl
    · rw [if_neg hm]

/-- Witness for `watchlist_ops_nodup`: adding "000002" to the singleton
watchlist ["000001"]. -/
theorem watchlist_ops_nodup_witness :
    (add_fund ["000001"] (fun _ => none)
        (fun c => some ⟨c, "F", 1, 0, "t", "S", 0⟩) "000002").1.Nodup ∧
      (delete_fund ["000001"] (fun _ => none) "000002").1.Nodup ∧
      ("000002" ∈ ["000001"] →
        add_fund ["000001"] (fun _ => none)
          (fun c => some ⟨c, "F", 1, 0, "t", "S", 0⟩) "000002" =
        (["000001"], (fun _ => none), false)) ∧
      ((add_fund ["000001"] (fun _ => none)
          (fun c => some ⟨c, "F", 1, 0, "t", "S", 0⟩) "000002").2.2 = true →
        (add_fund ["000001"] (fun _ => none)
          (fun c => some ⟨c, "F", 1, 0, "t", "S", 0⟩) "000002").1 =
            ["000001"] ++ ["000002"] ∧ "000002" ∉ ["000001"]) ∧
      (delete_fund ["000001"] (fun _ => none) "000002").1.Sublist ["000001"] := by
  exact watchlist_ops_nodup ["000001"] (fun _ => none)
    (fun c => some ⟨c, "F", 1, 0, "t", "S", 0⟩) "000002" (by simp)

/-! ## Quote fetchers (`fetch_from_*` in app.py)

Each fetcher is modelled from its post-HTTP parsing logic: the outer
`Option` of each input is `none` when the network call, the regex match,
or a `float()` conversion raised (all caught and converted to `None` by
the fetcher's `try/except`). -/

/-- `data['data']` of the eastmoney payload with the `d.get(key, 0)`
defaults already applied (missing keys read as 0). -/
structure EmData where
  f43 : ℚ
  f44 : ℚ
  f45 : ℚ
  f46 : ℚ
  f60 : ℚ
  f170 : ℚ
deriving DecidableEq, Repr

/-- `fetch_from_eastmoney` (app.py lines 196-237): prices arrive in
cents and are divided by 100; a non-positive current price yields
`None`. -/
def fetch_from_eastmoney (resp : Option EmData) (name : String) (now : ℚ) :
    Option GoldQuote :=
  match resp with
  | none => none
  | some d =>
    let current_price := d.f43 / 100
    if current_price ≤ 0 then none
    else
      some ⟨round2 current_price, round2 (d.f46 / 100), round2 (d.f44 / 100),
        round2 (d.f45 / 100), round2 (d.f60 / 100),
        round2 (current_price - d.f60 / 100), round2 (d.f170 / 100), now, name⟩

/-- `fetch_from_sina` (app.py lines 240-300) after the quoted-string
regex: each list element is the parsed float of a comma field, `none`
for an empty field (Python's `float(p) if p else 0` / `... else
current_price` defaults).  A non-positive current price yields `None`. -/
def fetch_from_sina (resp : Option (List (Option ℚ))) (name : String) (now : ℚ) :
    Option GoldQuote :=
  match resp with
  | none => none
  | some parts =>
    if parts.length < 8 then none
    else
      let current_price := (parts.getD 1 none).getD 0
      if current_price ≤ 0 then none
      else
        let yesterday_close := (parts.getD 2 none).getD current_price
        let open_price := (parts.getD 3 none).getD current_price
        let high_price := (parts.getD 4 none).getD current_price
        let low_price := (parts.getD 5 none).getD current_price
        let change := current_price - yesterday_close
        let change_percent :=
          if yesterday_close ≠ 0 then change / yesterday_close * 100 else 0
        some ⟨round2 current_price, round2 open_price, round2 high_price,
          round2 low_price, round2 yesterday_close, round2 change,
          round2 change_percent, now, name⟩

/-- `fetch_from_tencent` (app.py lines 302-357): the simple quote feed
(`parts`, split on `~`) and the optional full feed (`fullParts`).  The
current price is `float(parts[3])` and — unlike every other fetcher —
is *not* checked against zero, so a quote with non-positive price can
be returned. -/
def fetch_from_tencent (parts : Option (List ℚ)) (fullParts : Option (List ℚ))
    (name : String) (now : ℚ) : Option GoldQuote :=
  match parts with
  | none => none
  | some ps =>
    if ps.length < 6 then none
    else
      let current_price := ps.getD 3 0
      let change := ps.getD 4 0
      let change_percent := ps.getD 5 0
      match fullParts with
      | some fs =>
        if 34 < fs.length then
          some ⟨round2 current_price, round2 (fs.getD 5 0), round2 (fs.getD 33 0),
            round2 (fs.getD 34 0), round2 (fs.getD 4 0), round2 change,
            round2 change_percent, now, name⟩
        else
          some ⟨round2 current_price, round2 current_price, round2 current_price,
            round2 current_price, round2 (current_price - change), round2 change,
            round2 change_percent, now, name⟩
      | none =>
        some ⟨round2 current_price, round2 current_price, round2 current_price,
          round2 current_price, round2 (current_price - change), round2 change,
          round2 change_percent, now, name⟩

/-- The netease JSON record (`data['118AU9999']`): `price`, `updown` and
`percent` with their 0 defaults applied; the remaining fields are `none`
when the key is absent (defaulting to the current price). -/
structure NtData where
  price : ℚ
  ntOpen : Option ℚ
  ntHigh : Option ℚ
  ntLow : Option ℚ
  yestclose : Option ℚ
  updown : ℚ
  percent : ℚ
deriving DecidableEq, Repr

/-- `fetch_from_netease` (app.py lines 360-406): a non-positive price
yields `None`; `percent` is scaled by 100. -/
def fetch_from_netease (resp : Option NtData) (name : String) (now : ℚ) :
    Option GoldQuote :=
  match resp with
  | none => none
  | some d =>
    let current_price := d.price
    if current_price ≤ 0 then none
    else
      some ⟨round2 current_price, round2 (d.ntOpen.getD current_price),
        round2 (d.ntHigh.getD current_price), round2 (d.ntLow.getD current_price),
        round2 (d.yestclose.getD current_price), round2 d.updown,
        round2 (d.percent * 100), now, name⟩

/-- C2-counterexample: the tencent fetcher happily parses a feed whose
current price field is 0 and returns a quote with price 0 instead of
`None`; `fetch_gold_price` then propagates that quote as a success (so
it would be appended to the history buffer by the background loop). -/
theorem tencent_nonpositive_counterexample :
    fetch_from_tencent (some [1, 1, 1, 0, 0, 0]) none "腾讯财经" 5 =
        some ⟨0, 0, 0, 0, 0, 0, 0, 5, "腾讯财经"⟩ ∧
      ((0 : ℚ) ≤ 0) ∧
      (fetch_gold_price
          (fun t => if t = "tencent"
            then fetch_from_tencent (some [1, 1, 1, 0, 0, 0]) none "腾讯财经" 5
            else none)
          5 [⟨"腾讯财经", "tencent", true, 0, 0⟩]).1 =
        some ⟨0, 0, 0, 0, 0, 0, 0, 5, "腾讯财经"⟩ := by
  have h1 : fetch_from_tencent (some [1, 1, 1, 0, 0, 0]) none "腾讯财经" 5 =
      some ⟨0, 0, 0, 0, 0, 0, 0, 5, "腾讯财经"⟩ := by
    norm_num [fetch_from_tencent, round2]
  refine ⟨h1, le_refl 0, ?_⟩
  norm_num [fetch_gold_price, tryLoop, SOURCE_HANDLER_TYPES, h1]

/-- C2 (amended): the eastmoney, sina and netease fetchers return `None`
whenever the parsed current price is non-positive (and on any
parse/network error); `fetch_from_tencent` performs no such check (see
the counterexample). -/
theorem fetchers_discard_nonpositive (em : EmData) (sparts : List (Option ℚ))
    (nt : NtData) (name : String) (now : ℚ)
    (hem : em.f43 / 100 ≤ 0) (hsina : (sparts.getD 1 none).getD 0 ≤ 0)
    (hnt : nt.price ≤ 0) :
    fetch_from_eastmoney (some em) name now = none ∧
      fetch_from_sina (some sparts) name now = none ∧
      fetch_from_netease (some nt) name now = none ∧
      fetch_from_eastmoney none name now = none ∧
      fetch_from_sina none name now = none ∧
      fetch_from_netease none name now = none := by
  refine ⟨?_, ?_, ?_, rfl, rfl, rfl⟩
  · show (if em.f43 / 100 ≤ 0 then none else _) = none
    rw [if_pos hem]
  · show (if sparts.length < 8 then none
      else if (sparts.getD 1 none).getD 0 ≤ 0 then none else _) = none
    by_cases hlen : sparts.length < 8
    · rw [if_pos hlen]
    · rw [if_neg hlen, if_pos hsina]
  · show (if nt.price ≤ 0 then none else _) = none
    rw [if_pos hnt]

/-- Witness for `fetchers_discard_nonpositive`: a zero-price payload for
each of the three checking fetchers. -/
theorem fetchers_discard_nonpositive_witness :
    fetch_from_eastmoney (some ⟨0, 1, 1, 1, 1, 1⟩) "东方财富" 7 = none ∧
      fetch_from_sina (some [some 1, some 0, none, none, none, none, none, none])
          "新浪财经" 7 = none ∧
      fetch_from_netease (some ⟨0, none, none, none, none, 0, 0⟩) "网易财经" 7 = none ∧
      fetch_from_eastmoney none "东方财富" 7 = none ∧
      fetch_from_sina none "新浪财经" 7 = none ∧
      fetch_from_netease none "网易财经" 7 = none := by
  exact fetchers_discard_nonpositive ⟨0, 1, 1, 1, 1, 1⟩
    [some 1, some 0, none, none, none, none, none, none] ⟨0, none, none, none, none, 0, 0⟩
    "东方财富" 7 (by norm_num) (by norm_num) (by norm_num)

end GoldMonitor
